import Mathlib

/-!
Verification of the semantic-version bump validator and tag allocator of
`actions/version-python/check_semver.py`, together with the earlier
one-step checker `scripts/version_check.py`.

The embedding is shallow: the git and CodeArtifact side effects are
replaced by explicit state records (`GitState`, `Registry`), and each
Python function becomes a Lean function over those records.  Versions are
restricted to the shape the scripts actually handle,
`MAJOR.MINOR.PATCH[.devN]` (the tag regex `^v(\d+)\.(\d+)\.(\d+)(?:\.dev(\d+))?$`
and the PEP 440 subset it produces), so `packaging.version.Version`
becomes a four-field record and its total order becomes `vlt`/`vle`
below (base compared lexicographically first; a dev pre-release sorts
strictly below the final release of the same base; pre-releases of one
base sort by dev number).
-/

/-- A parsed version `major.minor.micro[.devN]`.  `dev = none` is a final
release; `dev = some n` is the pre-release `.devN`.  Mirrors the subset of
`packaging.version.Version` reachable from the scripts' regexes. -/
structure Version where
  major : Nat
  minor : Nat
  micro : Nat
  dev : Option Nat
deriving DecidableEq

/-- The `(major, minor, micro)` projection used throughout `check_semver.py`
as `Version(f"{v.major}.{v.minor}.{v.micro}")`. -/
def Version.base (v : Version) : Version :=
  ⟨v.major, v.minor, v.micro, none⟩

/-- Strict order on versions: PEP 440 restricted to the
`X.Y.Z[.devN]` shape (spec §3): compare the base lexicographically; on
equal bases a `.devN` pre-release is below the final release, and two
pre-releases compare by dev number. -/
def vlt (a b : Version) : Bool :=
  if a.major < b.major then true
  else if b.major < a.major then false
  else if a.minor < b.minor then true
  else if b.minor < a.minor then false
  else if a.micro < b.micro then true
  else if b.micro < a.micro then false
  else match a.dev, b.dev with
    | some x, some y => decide (x < y)
    | some _, none => true
    | none, _ => false

/-- Non-strict order on versions (`<=` of `packaging.version.Version`
restricted to the modelled shape). -/
def vle (a b : Version) : Bool :=
  vlt a b || a == b

/-- The git side of the scripts, as explicit state.  `fetchOk` records
whether `git fetch origin <ref>` succeeds (the script ignores this
result).  `tagsOk` is the exit status of `git tag --list ...` queries;
`tags` holds every repository tag of the form `vX.Y.Z[.devN]`, parsed.
`mergedOk`/`merged` model `git tag --merged <ref>`: the tags reachable
from `origin/<base_ref>`. -/
structure GitState where
  fetchOk : Bool
  tagsOk : Bool
  tags : List Version
  mergedOk : Bool
  merged : List Version

/-- `list_semver_tags(merged_ref)`: lists `v*` tags (on a failing listing
it returns the empty list), and when the `--merged` query succeeds it
restricts to tags merged into the reference; a failing `--merged` query
leaves the listing unrestricted. -/
def list_semver_tags (g : GitState) : List Version :=
  if g.tagsOk then
    if g.mergedOk then g.tags.filter (fun t => g.merged.contains t) else g.tags
  else []

/-- `latest_version_on_main(base_ref)`: the fetch result is discarded by
the script, then the maximum reachable semver tag under the PEP 440 order
is returned, or `0.0.0` when no tag matched.  (Python's `max` over a
nonempty list is the left fold of the pairwise maximum from the head.) -/
def latest_version_on_main (g : GitState) : Version :=
  match list_semver_tags g with
  | [] => ⟨0, 0, 0, none⟩
  | t :: rest => rest.foldl (fun acc v => if vlt acc v then v else acc) t

/-- `has_final_tag_for_base(base)`: does the exact tag
`v{base.major}.{base.minor}.{base.micro}` exist?  A failing listing
counts as "no". -/
def has_final_tag_for_base (g : GitState) (base : Version) : Bool :=
  if g.tagsOk then g.tags.any (fun t => t == base.base) else false

/-- `has_dev_tag_for_base(base)`: does any tag
`v{base.major}.{base.minor}.{base.micro}.dev<k>` exist?  A failing
listing counts as "no". -/
def has_dev_tag_for_base (g : GitState) (base : Version) : Bool :=
  if g.tagsOk then g.tags.any (fun t => t.base == base.base && t.dev.isSome) else false

/-- The seed of `next_dev_number_for_base`: `start = -1`, raised to
`main_v.dev` when `main_v` is a pre-release whose base equals `base`. -/
def startFromMain (base main_v : Version) : Int :=
  match main_v.dev with
  | some d => if main_v.base = base then max (-1) (d : Int) else -1
  | none => -1

/-- One step of the tag scan in `next_dev_number_for_base`: a tag
`v{base}.dev<k>` raises the running maximum to `k`; other tags are
skipped (the regex only matches dev tags of exactly this base). -/
def devStep (base : Version) (acc : Int) (t : Version) : Int :=
  if t.base = base then
    match t.dev with
    | some k => max acc (k : Int)
    | none => acc
  else acc

/-- `next_dev_number_for_base(base, main_v)`: fold the dev-tag scan over
the tag list (skipped entirely when the listing fails) on top of the seed
from `main_v`, then add 1. -/
def next_dev_number_for_base (g : GitState) (base main_v : Version) : Int :=
  (if g.tagsOk then g.tags.foldl (devStep base) (startFromMain base main_v)
   else startFromMain base main_v) + 1

/-- `is_exact_one_step_base(base, main_v)`: false when
`base <= main_base`; otherwise membership of `base` in the three
one-step successors `{(M+1).0.0, M.(m+1).0, M.m.(p+1)}` of
`main_base = (M, m, p)`. -/
def is_exact_one_step_base (base main_v : Version) : Bool :=
  if vle base main_v.base then false
  else
    base == ⟨main_v.major + 1, 0, 0, none⟩
      || base == ⟨main_v.major, main_v.minor + 1, 0, none⟩
      || base == ⟨main_v.major, main_v.minor, main_v.micro + 1, none⟩

/-- Execution context of a run (`detect_ci_context`): pull request vs.
push to main. -/
inductive Ctx where
  | pullRequest
  | mergeToMain
deriving DecidableEq

/-- The pull-request branch of the per-package decision in `main`
(lines 279-288).  Note `main_v.is_prerelease and main_v.dev is not None`
collapses to `main_v.dev.isSome` on the modelled version shape (the only
pre-release form is `.devN`). -/
def validate_pr (main_v : Version) (g : GitState) (pr_v : Version) : Bool :=
  if main_v.dev.isSome then pr_v.base == main_v.base
  else if pr_v.base = main_v.base then !(has_final_tag_for_base g main_v.base)
  else is_exact_one_step_base pr_v.base main_v

/-- The merge-to-main branch of the per-package decision in `main`
(lines 289-305): a dev-suffixed proposal is rejected outright; otherwise
accept on dev-cycle continuation of the same base, an exact one-step
bump, or the bootstrap-finish condition (same base, a dev tag exists, no
final tag exists). -/
def validate_merge (main_v : Version) (g : GitState) (pr_v : Version) : Bool :=
  if pr_v.dev.isSome then false
  else
    (main_v.dev.isSome && pr_v.base == main_v.base)
      || is_exact_one_step_base pr_v.base main_v
      || (pr_v.base == main_v.base
            && has_dev_tag_for_base g pr_v.base
            && !(has_final_tag_for_base g pr_v.base))

/-- The per-package accept/reject decision of `main`, dispatching on the
CI context. -/
def validate (ctx : Ctx) (main_v : Version) (g : GitState) (pr_v : Version) : Bool :=
  match ctx with
  | .pullRequest => validate_pr main_v g pr_v
  | .mergeToMain => validate_merge main_v g pr_v

/-- The CodeArtifact side of the scripts, as explicit state.
`configured` models all four environment variables being present;
`queryOk` models `list_dev_versions_from_codeartifact` completing without
raising; `published` is the list of published package versions the query
returns (of the modelled `X.Y.Z[.devN]` shape; the script's regex
discards anything else). -/
structure Registry where
  configured : Bool
  queryOk : Bool
  published : List Version

/-- `next_dev_number_from_codeartifact(base, package)`: `none` when the
environment is not configured or the query raises; otherwise the regex
keeps exactly the published `base.devN` versions, and the result is 0
when none exist, else 1 plus their maximum dev number.  (Python's `max`
over the nonempty list of dev numbers equals the fold of `max` from 0,
the numbers being naturals.) -/
def next_dev_number_from_codeartifact (reg : Registry) (base : Version) : Option Int :=
  if reg.configured then
    if reg.queryOk then
      let versions := reg.published.filter (fun t => t.base == base && t.dev.isSome)
      if versions.isEmpty then some 0
      else some (((versions.filterMap Version.dev).foldl max 0 : Nat) + 1)
    else none
  else none

/-- The allocator composition in `main` (lines 343-351): prefer the
CodeArtifact number; fall back to the git-tag scan only when the
registry is unavailable. -/
def allocate (reg : Registry) (g : GitState) (base main_v : Version) : Int :=
  match next_dev_number_from_codeartifact reg base with
  | some d => d
  | none => next_dev_number_for_base g base main_v

/-- One line of the "Observed versions" report printed by `main`:
package name, its decision, and its accepted base (or none). -/
structure Row where
  pkg : String
  ok : Bool
  base : Option Version
deriving DecidableEq

/-- One iteration of the per-package loop in `main`: run the validator
and record the row (`base_ok` is the proposed base exactly when the
decision is positive). -/
def checkPackage (ctx : Ctx) (g : GitState) (main_v : Version) (pkg : String × Version) : Row :=
  { pkg := pkg.1
    ok := validate ctx main_v g pkg.2
    base := if validate ctx main_v g pkg.2 then some pkg.2.base else none }

/-- The distinct members of a list of bases, modelling the Python set
`proposed_bases` (membership is what the script uses: its size, its
sorted rendering, and its sole element on success). -/
def dedupBases : List Version → List Version
  | [] => []
  | v :: rest => if v ∈ rest then dedupBases rest else v :: dedupBases rest

/-- All rows of a run: `main_v` is resolved once from tags, then every
package under `src/*/__init__.py` is validated against it. -/
def runRows (ctx : Ctx) (g : GitState) (pkgs : List (String × Version)) : List Row :=
  pkgs.map (checkPackage ctx g (latest_version_on_main g))

/-- The set of distinct accepted bases of a run (`proposed_bases`). -/
def acceptedBases (ctx : Ctx) (g : GitState) (pkgs : List (String × Version)) : List Version :=
  dedupBases ((runRows ctx g pkgs).filterMap Row.base)

/-- The run's agreed base on success (`next(iter(proposed_bases))`;
the set is a singleton on every reachable success path). -/
def headBase (ctx : Ctx) (g : GitState) (pkgs : List (String × Version)) : Version :=
  (acceptedBases ctx g pkgs).headD ⟨0, 0, 0, none⟩

/-- The pull-request tag `v{base}.dev{devn}`, as the version it renders
(the `v...`/`.dev...` string rendering is injective on the modelled
shape). -/
def prTag (base : Version) (devn : Int) : Version :=
  ⟨base.major, base.minor, base.micro, some devn.toNat⟩

/-- Result of a whole run of `main`: exit 1 with no package found; exit 1
with the accumulated failure report (carrying the multiple-bases failure
content when raised, plus the observed-versions rows); or success with
the emitted tag and the rows. -/
inductive RunResult where
  | noPackages
  | failed (multiBases : Option (List Version)) (rows : List Row)
  | passed (tag : Version) (rows : List Row)
deriving DecidableEq

/-- The run pipeline of `main`.  The script appends the
multiple-bases failure when the set of accepted bases has more than one
member and then exits 1 iff any failure (per-package or multi-base) was
accumulated; the branch order below is an equivalent rendering of that:
multi-base failure first (its presence alone forces exit 1), then
per-package failures, then the success path with its context-dependent
tag. -/
def runCheck (ctx : Ctx) (g : GitState) (reg : Registry) (pkgs : List (String × Version)) : RunResult :=
  if pkgs = [] then .noPackages
  else if 1 < (acceptedBases ctx g pkgs).length then
    .failed (some (acceptedBases ctx g pkgs)) (runRows ctx g pkgs)
  else if (runRows ctx g pkgs).any (fun r => !r.ok) then
    .failed none (runRows ctx g pkgs)
  else
    match ctx with
    | .pullRequest =>
        .passed
          (prTag (headBase ctx g pkgs)
                 (allocate reg g (headBase ctx g pkgs) (latest_version_on_main g)))
          (runRows ctx g pkgs)
    | .mergeToMain => .passed (headBase ctx g pkgs) (runRows ctx g pkgs)

/-- A version as stored in `version.json` and read by
`scripts/version_check.py`: the three numeric fields. -/
structure JsonVersion where
  major : Nat
  minor : Nat
  patch : Nat
deriving DecidableEq

/-- `compare_versions(old, new)` of `scripts/version_check.py`: true
exactly on a one-step major, minor, or patch bump. -/
def compare_versions (old new : JsonVersion) : Bool :=
  if new.major = old.major + 1 ∧ new.minor = 0 ∧ new.patch = 0 then true
  else if new.major = old.major ∧ new.minor = old.minor + 1 ∧ new.patch = 0 then true
  else if new.major = old.major ∧ new.minor = old.minor ∧ new.patch = old.patch + 1 then true
  else false

/-- The dev numbers attached to `base` in a list of versions (used to
state claims about the allocation sources). -/
def devNums (l : List Version) (base : Version) : List Nat :=
  (l.filter (fun t => t.base == base)).filterMap Version.dev

/-- Modelled from the spec (§4.4) and the claim's words, for comparison
with the implemented allocator: start the candidate at -1, fold in
`r.dev` when `r` is a pre-release of `base`, every local dev-tag number
of `base`, and every registry-published dev number of `base`, and return
the candidate plus 1. -/
def allocate_claim (reg : Registry) (g : GitState) (base r : Version) : Int :=
  let c0 : Int := -1
  let c1 : Int :=
    match r.dev with
    | some d => if r.base = base then max c0 (d : Int) else c0
    | none => c0
  let c2 : Int := (devNums g.tags base).foldl (fun a n => max a (Int.ofNat n)) c1
  let c3 : Int := (devNums reg.published base).foldl (fun a n => max a (Int.ofNat n)) c2
  c3 + 1

/-- A git state with no tags at all (tag queries succeed). -/
def gEmpty : GitState :=
  ⟨true, true, [], true, []⟩

/-- A git state on which every git query fails: the fetch fails and tag
listing exits nonzero (the parsed tag list is irrelevant then). -/
def gBadTags : GitState :=
  ⟨false, false, [⟨9, 9, 9, none⟩], true, []⟩

/-- An unconfigured registry (`next_dev_number_from_codeartifact`
returns `none`). -/
def regNone : Registry :=
  ⟨false, false, []⟩

/-- A configured, successfully answering registry that has no published
versions. -/
def regEmptyOk : Registry :=
  ⟨true, true, []⟩

/-- Release state `1.3.0.dev2` materialised as tag history: the single
tag `v1.3.0.dev2`, reachable from main. -/
def gDev2 : GitState :=
  ⟨true, true, [⟨1, 3, 0, some 2⟩], true, [⟨1, 3, 0, some 2⟩]⟩

/-- Tag history for the registry counterexample: the local dev tag
`v1.3.0.dev5` exists. -/
def gDev5 : GitState :=
  ⟨true, true, [⟨1, 3, 0, some 5⟩], true, [⟨1, 3, 0, some 5⟩]⟩

/-- A configured, successfully answering registry for the counterexample:
it knows of no published `1.3.0.dev*` artifact. -/
def regC2 : Registry :=
  ⟨true, true, []⟩

/-- Tag history `v1.2.0` on main, for the reconciliation witness. -/
def g120 : GitState :=
  ⟨true, true, [⟨1, 2, 0, none⟩], true, [⟨1, 2, 0, none⟩]⟩

/-- A configured, successfully answering registry that has published
`2.0.0.dev4` (and one version of an unrelated base). -/
def regPub : Registry :=
  ⟨true, true, [⟨2, 0, 0, some 4⟩, ⟨1, 9, 9, some 7⟩]⟩

/-! ## Order and one-step lemmas -/

theorem vlt_irrefl (a : Version) : vlt a a = false := by
  rcases a with ⟨x, y, z, d⟩
  cases d <;> simp [vlt]

theorem vlt_ne {a b : Version} (h : vlt a b = true) : a ≠ b := by
  intro he
  subst he
  rw [vlt_irrefl] at h
  exact Bool.false_ne_true h

theorem vlt_final_iff (x y z M m p : Nat) :
    vlt ⟨x, y, z, none⟩ ⟨M, m, p, none⟩ = true ↔
      (x < M ∨ (x = M ∧ y < m) ∨ (x = M ∧ y = m ∧ z < p)) := by
  simp only [vlt]
  split_ifs <;> simp_all <;> omega

theorem vle_final_iff (x y z M m p : Nat) :
    vle ⟨x, y, z, none⟩ ⟨M, m, p, none⟩ = true ↔
      (x < M ∨ (x = M ∧ y < m) ∨ (x = M ∧ y = m ∧ z < p) ∨ (x = M ∧ y = m ∧ z = p)) := by
  simp only [vle, Bool.or_eq_true, vlt_final_iff, beq_iff_eq, Version.mk.injEq, and_true]
  omega

theorem is_exact_iff (x y z M m p : Nat) (d : Option Nat) :
    is_exact_one_step_base ⟨x, y, z, none⟩ ⟨M, m, p, d⟩ = true ↔
      ((⟨x, y, z, none⟩ : Version) = ⟨M + 1, 0, 0, none⟩ ∨
       (⟨x, y, z, none⟩ : Version) = ⟨M, m + 1, 0, none⟩ ∨
       (⟨x, y, z, none⟩ : Version) = ⟨M, m, p + 1, none⟩) := by
  simp only [is_exact_one_step_base, Version.base]
  by_cases hle : vle ⟨x, y, z, none⟩ ⟨M, m, p, none⟩ = true
  · rw [if_pos hle]
    rw [vle_final_iff] at hle
    simp only [Version.mk.injEq, and_true]
    constructor
    · intro h
      exact absurd h Bool.false_ne_true
    · intro h
      exfalso
      omega
  · rw [if_neg hle]
    simp only [Bool.or_eq_true, beq_iff_eq, or_assoc]

/-! ## C1 -/

/-- C1 counterexample: with release state `1.3.0.dev2` the pull-request
proposal `1.3.0.dev1` is strictly below the release state under the
total order, yet the validator accepts it through the dev-continuation
branch; no monotonicity rule runs first as the claim states. -/
theorem dev_continuation_accepts_nonmonotonic :
    vle ⟨1, 3, 0, some 1⟩ ⟨1, 3, 0, some 2⟩ = true ∧
    vlt ⟨1, 3, 0, some 1⟩ ⟨1, 3, 0, some 2⟩ = true ∧
    validate .pullRequest ⟨1, 3, 0, some 2⟩ gDev2 ⟨1, 3, 0, some 1⟩ = true := by
  decide

/-- C1 amended: monotonicity holds only at the level of bases, and not
as a rule applied before the others: a proposal whose base is strictly
below the release state's base is rejected in every context, but a
proposal that is ≤ the release state while sharing its base can be
accepted by the equal-base allowances (dev continuation, bootstrap). -/
theorem base_below_release_rejected (ctx : Ctx) (g : GitState) (main_v pr_v : Version)
    (h : vlt pr_v.base main_v.base = true) :
    validate ctx main_v g pr_v = false := by
  have hne : pr_v.base ≠ main_v.base := vlt_ne h
  have hle : vle pr_v.base main_v.base = true := by
    simp [vle, h]
  have hexact : is_exact_one_step_base pr_v.base main_v = false := by
    simp [is_exact_one_step_base, hle]
  cases ctx with
  | pullRequest =>
      by_cases h1 : main_v.dev.isSome
      · simp [validate, validate_pr, h1, hne]
      · simp [validate, validate_pr, h1, hne, hexact]
  | mergeToMain =>
      by_cases h1 : pr_v.dev.isSome
      · simp [validate, validate_merge, h1]
      · simp [validate, validate_merge, h1, hne, hexact]

/-- C1 amended, witness: proposal base `1.1.0` against release state
`1.2.0` is rejected in pull-request context. -/
theorem base_below_release_rejected_witness :
    vlt (Version.base ⟨1, 1, 0, some 0⟩) (Version.base ⟨1, 2, 0, none⟩) = true ∧
    validate .pullRequest ⟨1, 2, 0, none⟩ gEmpty ⟨1, 1, 0, some 0⟩ = false :=
  ⟨by decide,
   base_below_release_rejected .pullRequest gEmpty ⟨1, 2, 0, none⟩ ⟨1, 1, 0, some 0⟩ (by decide)⟩

/-! ## C6 -/

/-- C6: in pull-request context with a final release state `(M, m, p)`
and a proposal of that very base, the proposal is accepted iff no final
tag exists for that base. -/
theorem bootstrap_same_base_iff_no_final_tag (g : GitState) (M m p : Nat) (pr_v : Version)
    (hbase : pr_v.base = ⟨M, m, p, none⟩) :
    validate .pullRequest ⟨M, m, p, none⟩ g pr_v = true ↔
      has_final_tag_for_base g ⟨M, m, p, none⟩ = false := by
  simp only [validate, validate_pr, hbase]
  simp [Version.base]

/-- C6 witness: with the final tag `v1.2.0` cut, the equal-base proposal
`1.2.0` is rejected in pull-request context; with no tags at all it is
accepted. -/
theorem bootstrap_same_base_iff_no_final_tag_witness :
    (Version.base ⟨1, 2, 0, none⟩ = ⟨1, 2, 0, none⟩) ∧
    validate .pullRequest ⟨1, 2, 0, none⟩ g120 ⟨1, 2, 0, none⟩ = false ∧
    validate .pullRequest ⟨1, 2, 0, none⟩ gEmpty ⟨1, 2, 0, none⟩ = true := by
  refine ⟨rfl, ?_, ?_⟩
  · have h := bootstrap_same_base_iff_no_final_tag g120 1 2 0 ⟨1, 2, 0, none⟩ rfl
    have hf : has_final_tag_for_base g120 ⟨1, 2, 0, none⟩ = true := by decide
    rw [hf] at h
    exact Bool.eq_false_iff.mpr (fun hx => absurd (h.mp hx) (by decide))
  · exact (bootstrap_same_base_iff_no_final_tag gEmpty 1 2 0 ⟨1, 2, 0, none⟩ rfl).mpr (by decide)

/-! ## C8 -/

/-- C8: in merge-to-main context every proposal carrying a dev suffix is
rejected, whatever its base, the release state, and the tag history. -/
theorem prerelease_on_merge_rejected (main_v : Version) (g : GitState) (pr_v : Version)
    (h : pr_v.dev.isSome = true) :
    validate .mergeToMain main_v g pr_v = false := by
  simp [validate, validate_merge, h]

/-- C8 witness: release state `1.2.0`, merge proposal `1.3.0.dev0` is
rejected. -/
theorem prerelease_on_merge_rejected_witness :
    (Version.dev ⟨1, 3, 0, some 0⟩).isSome = true ∧
    validate .mergeToMain ⟨1, 2, 0, none⟩ gEmpty ⟨1, 3, 0, some 0⟩ = false :=
  ⟨rfl, prerelease_on_merge_rejected ⟨1, 2, 0, none⟩ gEmpty ⟨1, 3, 0, some 0⟩ rfl⟩

/-! ## C9 -/

/-- C9: the pull-request decision is a function of the proposed base
alone: two proposals with the same `(major, minor, micro)` — whatever
their dev components — get the same decision against the same release
state and tag history. -/
theorem pr_decision_depends_only_on_base (g : GitState) (main_v v1 v2 : Version)
    (h : v1.base = v2.base) :
    validate .pullRequest main_v g v1 = validate .pullRequest main_v g v2 := by
  simp only [validate, validate_pr, h]

/-- C9 witness: the final proposal `1.3.0` and the pre-release proposal
`1.3.0.dev7` get the same pull-request decision against release state
`1.2.0`. -/
theorem pr_decision_depends_only_on_base_witness :
    (Version.base ⟨1, 3, 0, none⟩ = Version.base ⟨1, 3, 0, some 7⟩) ∧
    validate .pullRequest ⟨1, 2, 0, none⟩ g120 ⟨1, 3, 0, none⟩ =
      validate .pullRequest ⟨1, 2, 0, none⟩ g120 ⟨1, 3, 0, some 7⟩ :=
  ⟨rfl, pr_decision_depends_only_on_base g120 ⟨1, 2, 0, none⟩ ⟨1, 3, 0, none⟩ ⟨1, 3, 0, some 7⟩ rfl⟩

/-! ## C3 -/

/-- C3: with a final release state `(M, m, p)` in merge-to-main context
and no dev tag for the proposed base (the default mode), a proposal is
accepted iff it is a final release whose base is exactly one of the
three one-step successors. -/
theorem merge_default_three_bases (g : GitState) (M m p : Nat) (pr_v : Version)
    (hdev : has_dev_tag_for_base g pr_v.base = false) :
    validate .mergeToMain ⟨M, m, p, none⟩ g pr_v = true ↔
      (pr_v.dev = none ∧
        (pr_v.base = ⟨M + 1, 0, 0, none⟩ ∨ pr_v.base = ⟨M, m + 1, 0, none⟩ ∨
         pr_v.base = ⟨M, m, p + 1, none⟩)) := by
  rcases pr_v with ⟨x, y, z, d⟩
  have hb : Version.base ⟨x, y, z, d⟩ = ⟨x, y, z, none⟩ := rfl
  rw [hb] at hdev
  cases d with
  | some k => simp [validate, validate_merge]
  | none =>
      simp [validate, validate_merge, hb, hdev, is_exact_iff]

/-- C3 witness: release state `1.2.0`, no tags, the final proposal
`1.3.0` (a minor bump) is accepted on merge. -/
theorem merge_default_three_bases_witness :
    has_dev_tag_for_base gEmpty (Version.base ⟨1, 3, 0, none⟩) = false ∧
    validate .mergeToMain ⟨1, 2, 0, none⟩ gEmpty ⟨1, 3, 0, none⟩ = true :=
  ⟨by decide,
   (merge_default_three_bases gEmpty 1 2 0 ⟨1, 3, 0, none⟩ (by decide)).mpr
     ⟨rfl, Or.inr (Or.inl rfl)⟩⟩

/-! ## C10 -/

/-- C10: on final versions, the one-step check of the earlier
`scripts/version_check.py` and `is_exact_one_step_base` of
`check_semver.py` compute the same relation (the `base > main_base`
guard of the newer predicate is redundant on the three successor
candidates). -/
theorem compare_versions_eq_one_step (old new : JsonVersion) :
    compare_versions old new =
      is_exact_one_step_base ⟨new.major, new.minor, new.patch, none⟩
        ⟨old.major, old.minor, old.patch, none⟩ := by
  rcases old with ⟨a, b, c⟩
  rcases new with ⟨d, e, f⟩
  rw [Bool.eq_iff_iff, is_exact_iff]
  simp only [compare_versions, Version.mk.injEq, and_true]
  split_ifs with h1 h2 h3 <;> simp_all

/-! ## C7 -/

theorem foldl_devStep_le (base : Version) (l : List Version) :
    ∀ a : Int, (∀ t ∈ l, t.base = base → ∀ k, t.dev = some k → (k : Int) ≤ a) →
      l.foldl (devStep base) a = a := by
  induction l with
  | nil => intro a _; rfl
  | cons t rest ih =>
      intro a h
      have hstep : devStep base a t = a := by
        cases hd : t.dev with
        | none =>
            by_cases hb : t.base = base <;> simp [devStep, hd, hb]
        | some k =>
            by_cases hb : t.base = base
            · have hk : (k : Int) ≤ a := h t (List.mem_cons_self t rest) hb k hd
              simp [devStep, hd, hb, max_eq_left hk]
            · simp [devStep, hb]
      rw [List.foldl_cons, hstep]
      exact ih a (fun t' ht' => h t' (List.mem_cons_of_mem t ht'))

/-- C7: with release state a pre-release `B.devN`, every pull-request
proposal of base `B` is accepted; and when the registry is unavailable
and no local dev tag of `B` exceeds `N`, the allocator returns `N + 1`,
so the emitted tag is `vB.dev(N+1)`. -/
theorem dev_continuation_and_allocation (g : GitState) (reg : Registry)
    (b1 b2 b3 N : Nat)
    (hreg : next_dev_number_from_codeartifact reg ⟨b1, b2, b3, none⟩ = none)
    (htags : ∀ t ∈ g.tags, t.base = ⟨b1, b2, b3, none⟩ → ∀ k, t.dev = some k → k ≤ N) :
    (∀ pr_v : Version, pr_v.base = ⟨b1, b2, b3, none⟩ →
        validate .pullRequest ⟨b1, b2, b3, some N⟩ g pr_v = true) ∧
    allocate reg g ⟨b1, b2, b3, none⟩ ⟨b1, b2, b3, some N⟩ = (N : Int) + 1 ∧
    prTag ⟨b1, b2, b3, none⟩ (allocate reg g ⟨b1, b2, b3, none⟩ ⟨b1, b2, b3, some N⟩) =
      ⟨b1, b2, b3, some (N + 1)⟩ := by
  have hstart : startFromMain ⟨b1, b2, b3, none⟩ ⟨b1, b2, b3, some N⟩ = (N : Int) := by
    have h1 : max (-1) (N : Int) = (N : Int) := max_eq_right (by omega)
    simp [startFromMain, Version.base, h1]
  have halloc : allocate reg g ⟨b1, b2, b3, none⟩ ⟨b1, b2, b3, some N⟩ = (N : Int) + 1 := by
    simp only [allocate, hreg, next_dev_number_for_base, hstart]
    by_cases ht : g.tagsOk
    · rw [if_pos ht,
        foldl_devStep_le _ g.tags _
          (fun t hm hb k hk => Int.ofNat_le.mpr (htags t hm hb k hk))]
    · rw [if_neg ht]
  refine ⟨?_, halloc, ?_⟩
  · intro pr_v hb
    show validate_pr ⟨b1, b2, b3, some N⟩ g pr_v = true
    rw [validate_pr, hb]
    simp [Version.base]
  · rw [halloc]
    simp only [prTag, Version.mk.injEq, Option.some.injEq, eq_self_iff_true, true_and]
    omega

/-- C7 witness: release state `1.3.0.dev2` (tag `v1.3.0.dev2`), no
registry; the equal-base proposal `1.3.0.dev2` is accepted and the
allocator yields 3, i.e. the tag `v1.3.0.dev3`. -/
theorem dev_continuation_and_allocation_witness :
    next_dev_number_from_codeartifact regNone ⟨1, 3, 0, none⟩ = none ∧
    (∀ t ∈ gDev2.tags, t.base = ⟨1, 3, 0, none⟩ → ∀ k, t.dev = some k → k ≤ 2) ∧
    validate .pullRequest ⟨1, 3, 0, some 2⟩ gDev2 ⟨1, 3, 0, some 2⟩ = true ∧
    prTag ⟨1, 3, 0, none⟩ (allocate regNone gDev2 ⟨1, 3, 0, none⟩ ⟨1, 3, 0, some 2⟩) =
      ⟨1, 3, 0, some 3⟩ :=
  ⟨rfl, by decide,
   (dev_continuation_and_allocation gDev2 regNone 1 3 0 2 rfl (by decide)).1 ⟨1, 3, 0, some 2⟩ rfl,
   (dev_continuation_and_allocation gDev2 regNone 1 3 0 2 rfl (by decide)).2.2⟩

/-! ## C2 -/

/-- C2 counterexample: release state `1.3.0.dev5`, local dev tag
`v1.3.0.dev5`, registry configured and answering with no published
version: the implemented allocator returns 0 (the registry answer alone),
while the claimed three-source maximum would return 6.  The locally
consumed dev number 5 is re-allocated below it. -/
theorem registry_answer_overrides_local_sources :
    allocate regC2 gDev5 ⟨1, 3, 0, none⟩ ⟨1, 3, 0, some 5⟩ = 0 ∧
    allocate_claim regC2 gDev5 ⟨1, 3, 0, none⟩ ⟨1, 3, 0, some 5⟩ = 6 ∧
    allocate regC2 gDev5 ⟨1, 3, 0, none⟩ ⟨1, 3, 0, some 5⟩ ≠
      allocate_claim regC2 gDev5 ⟨1, 3, 0, none⟩ ⟨1, 3, 0, some 5⟩ := by
  decide

theorem filterMap_dev_filter (base : Version) (l : List Version) :
    (l.filter (fun t => t.base == base && t.dev.isSome)).filterMap Version.dev
      = devNums l base := by
  induction l with
  | nil => rfl
  | cons t rest ih =>
      by_cases hb : t.base = base
      · cases hd : t.dev with
        | none => simp [devNums, List.filter_cons, List.filterMap_cons, hb, hd, ih]
        | some k => simp [devNums, List.filter_cons, List.filterMap_cons, hb, hd, ih]
      · simp [devNums, List.filter_cons, hb, ih]

theorem filterMap_dev_ne_nil {l : List Version}
    (hall : ∀ t ∈ l, t.dev.isSome = true) (h : l ≠ []) :
    l.filterMap Version.dev ≠ [] := by
  cases l with
  | nil => exact absurd rfl h
  | cons t rest =>
      have ht := hall t (List.mem_cons_self t rest)
      cases hd : t.dev with
      | none => rw [hd] at ht; exact absurd ht (by simp)
      | some k => simp [List.filterMap_cons, hd]

theorem foldl_max_cast (l : List Nat) : ∀ a : Nat,
    ((l.foldl max a : Nat) : Int) = l.foldl (fun x n => max x (Int.ofNat n)) (a : Int) := by
  induction l with
  | nil => intro a; rfl
  | cons x xs ih =>
      intro a
      simp only [List.foldl_cons, Int.ofNat_eq_natCast] at ih ⊢
      rw [ih (max a x), Nat.cast_max]

theorem foldl_max_from_neg_one (l : List Nat) (h : l ≠ []) :
    l.foldl (fun x n => max x (Int.ofNat n)) (-1) = ((l.foldl max 0 : Nat) : Int) := by
  cases l with
  | nil => exact absurd rfl h
  | cons x xs =>
      simp only [List.foldl_cons, Int.ofNat_eq_natCast]
      rw [foldl_max_cast xs (max 0 x)]
      have h1 : max (-1) (x : Int) = (x : Int) := max_eq_right (by omega)
      have h2 : (max 0 x : Nat) = x := max_eq_right (Nat.zero_le x)
      simp only [Int.ofNat_eq_natCast, h1, h2]

/-- C2 amended: when the registry is configured and its query succeeds,
the allocator returns 1 plus the maximum over the registry-published dev
numbers of the base alone (so 0 when none is published); the release
state's dev number and the local dev tags are not folded in — they are
consulted only in the fallback when the registry is unavailable. -/
theorem allocate_registry_only (reg : Registry) (g : GitState) (base r : Version)
    (hc : reg.configured = true) (hq : reg.queryOk = true) :
    allocate reg g base r =
      1 + (devNums reg.published base).foldl (fun a n => max a (Int.ofNat n)) (-1) := by
  have hfil := filterMap_dev_filter base reg.published
  by_cases he : reg.published.filter (fun t => t.base == base && t.dev.isSome) = []
  · have hd0 : devNums reg.published base = [] := by rw [← hfil, he]; rfl
    simp [allocate, next_dev_number_from_codeartifact, hc, hq, he, hd0]
  · have hall : ∀ t ∈ reg.published.filter (fun t => t.base == base && t.dev.isSome),
        t.dev.isSome = true := by
      intro t ht
      have hmem := List.of_mem_filter ht
      rw [Bool.and_eq_true] at hmem
      exact hmem.2
    have hne := filterMap_dev_ne_nil hall he
    rw [hfil] at hne
    simp only [allocate, next_dev_number_from_codeartifact, hc, hq, if_true, he,
      List.isEmpty_eq_true, if_false, hfil]
    rw [foldl_max_from_neg_one _ hne]
    omega

/-- C2 amended, witness: registry configured and answering with
`2.0.0.dev4` published; the allocator's answer for base `2.0.0` is the
registry-only fold (here 5), whatever the local tag state and release
state. -/
theorem allocate_registry_only_witness :
    regPub.configured = true ∧ regPub.queryOk = true ∧
    allocate regPub gDev5 ⟨2, 0, 0, none⟩ ⟨1, 3, 0, some 5⟩ =
      1 + (devNums regPub.published ⟨2, 0, 0, none⟩).foldl (fun a n => max a (Int.ofNat n)) (-1) :=
  ⟨rfl, rfl, allocate_registry_only regPub gDev5 ⟨2, 0, 0, none⟩ ⟨1, 3, 0, some 5⟩ rfl rfl⟩

/-! ## C5 -/

/-- C5 counterexample: on a state where the tag listing itself fails
(and the fetch fails too), release-state resolution does not abort: it
returns `0.0.0` and a run completes normally, here accepting a
pull-request proposal `0.1.0` and emitting the tag `v0.1.0.dev0`. -/
theorem listing_failure_yields_zero :
    gBadTags.tagsOk = false ∧ gBadTags.fetchOk = false ∧
    latest_version_on_main gBadTags = ⟨0, 0, 0, none⟩ ∧
    runCheck .pullRequest gBadTags regNone [("pkg", ⟨0, 1, 0, none⟩)] =
      .passed ⟨0, 1, 0, some 0⟩ [⟨"pkg", true, some ⟨0, 1, 0, none⟩⟩] := by
  decide

/-- C5 amended: release-state resolution cannot fail: the fetch result
is ignored, a failing tag listing is treated exactly like an empty
reachable tag set, and both yield the zero version `0.0.0`; no fatal
abort path exists in the resolver. -/
theorem resolver_never_fails (g : GitState) :
    (g.tagsOk = false → latest_version_on_main g = ⟨0, 0, 0, none⟩) ∧
    (list_semver_tags g = [] → latest_version_on_main g = ⟨0, 0, 0, none⟩) := by
  constructor
  · intro h
    simp [latest_version_on_main, list_semver_tags, h]
  · intro h
    simp [latest_version_on_main, h]

/-- C5 amended, witness: on the failing-listing state the resolver
returns `0.0.0`. -/
theorem resolver_never_fails_witness :
    gBadTags.tagsOk = false ∧ latest_version_on_main gBadTags = ⟨0, 0, 0, none⟩ :=
  ⟨rfl, (resolver_never_fails gBadTags).1 rfl⟩

/-! ## C4 -/

theorem mem_dedupBases (v : Version) (l : List Version) : v ∈ dedupBases l ↔ v ∈ l := by
  induction l with
  | nil => simp [dedupBases]
  | cons t rest ih =>
      simp only [dedupBases]
      split_ifs with h
      · rw [ih]
        simp only [List.mem_cons]
        exact ⟨Or.inr, fun h' => h'.elim (fun he => he ▸ h) id⟩
      · simp [List.mem_cons, ih]

/-- C4: whenever the accepted outcomes of a run resolve to more than one
distinct base, the run fails carrying the multiple-bases failure, the
failure names exactly the distinct accepted bases, and the report's rows
pair every accepting package with the base it proposed. -/
theorem multiple_bases_failure (ctx : Ctx) (g : GitState) (reg : Registry)
    (pkgs : List (String × Version))
    (hne : pkgs ≠ [])
    (hmulti : 1 < (acceptedBases ctx g pkgs).length) :
    runCheck ctx g reg pkgs =
        .failed (some (acceptedBases ctx g pkgs)) (runRows ctx g pkgs) ∧
    (∀ b, b ∈ acceptedBases ctx g pkgs ↔
        ∃ p ∈ pkgs, validate ctx (latest_version_on_main g) g p.2 = true ∧ p.2.base = b) ∧
    (∀ p ∈ pkgs, validate ctx (latest_version_on_main g) g p.2 = true →
        (⟨p.1, true, some p.2.base⟩ : Row) ∈ runRows ctx g pkgs) := by
  refine ⟨?_, ?_, ?_⟩
  · rw [runCheck.eq_def, if_neg hne, if_pos hmulti]
  · intro b
    rw [acceptedBases, mem_dedupBases]
    simp only [runRows, List.mem_filterMap, List.mem_map]
    constructor
    · rintro ⟨r, ⟨p, hp, hr⟩, hb⟩
      subst hr
      simp only [checkPackage] at hb
      by_cases hv : validate ctx (latest_version_on_main g) g p.2 = true
      · rw [if_pos hv] at hb
        exact ⟨p, hp, hv, Option.some_inj.mp hb⟩
      · rw [if_neg hv] at hb
        exact absurd hb (by simp)
    · rintro ⟨p, hp, hv, hb⟩
      exact ⟨checkPackage ctx g (latest_version_on_main g) p, ⟨p, hp, rfl⟩,
        by simp [checkPackage, hv, hb]⟩
  · intro p hp hv
    simp only [runRows, List.mem_map]
    exact ⟨p, hp, by simp [checkPackage, hv]⟩

/-- C4 witness: release state `1.2.0`; package A proposes `1.2.1`,
package B proposes `1.3.0`; both are accepted in pull-request context and
the run fails with the multiple-bases failure naming the two bases. -/
theorem multiple_bases_failure_witness :
    ([("A", (⟨1, 2, 1, none⟩ : Version)), ("B", ⟨1, 3, 0, none⟩)] ≠
        ([] : List (String × Version))) ∧
    1 < (acceptedBases .pullRequest g120
          [("A", ⟨1, 2, 1, none⟩), ("B", ⟨1, 3, 0, none⟩)]).length ∧
    runCheck .pullRequest g120 regNone [("A", ⟨1, 2, 1, none⟩), ("B", ⟨1, 3, 0, none⟩)] =
      .failed
        (some (acceptedBases .pullRequest g120
          [("A", ⟨1, 2, 1, none⟩), ("B", ⟨1, 3, 0, none⟩)]))
        (runRows .pullRequest g120 [("A", ⟨1, 2, 1, none⟩), ("B", ⟨1, 3, 0, none⟩)]) :=
  ⟨by decide, by decide,
   (multiple_bases_failure .pullRequest g120 regNone
      [("A", ⟨1, 2, 1, none⟩), ("B", ⟨1, 3, 0, none⟩)] (by decide) (by decide)).1⟩
